import Mathlib

set_option maxHeartbeats 1000000

/-!
Shallow embedding of `src/arc_array.rs` (`UnsafeArcArray<N, T>`): a fixed
array of `N` slots, each a 64-bit atomic reference count paired with
`UnsafeCell<MaybeUninit<T>>` storage, together with the four operations
`acquire_and_init`, `get_ref`, `inc_count` and `dec_count`.

Modelling decisions:
* the sequential semantics of each operation is embedded directly; atomic
  read-modify-writes become plain state updates;
* `AtomicU64` counters are `Nat` values taken modulo `2 ^ 64` wherever the
  source's `fetch_add` / `fetch_sub` can wrap;
* slot storage is `SlotStorage T`: `uninit` (never written), `live v`
  (after `MaybeUninit::write`), `destroyed` (after `assume_init_drop`);
* Rust panics (`assert!`, array bounds checks, `debug_assert!`) are an
  explicit `Option PanicKind` in each operation's result; `dec_count` takes
  a `debug : Bool` flag selecting whether `debug_assert!` is compiled in;
* the `FnOnce() -> T` initializer is embedded as a state-threading function
  `σ → T × σ` so that the number of times it runs is observable;
* the memory-ordering annotations on the atomics are embedded as `MemOrd`
  data so that statements about them can be checked; the happens-before
  semantics of the C11 memory model itself is outside this embedding.
-/

namespace ArcArraySpec

/-- Modulus of a 64-bit unsigned counter: `AtomicU64` arithmetic wraps modulo this. -/
def u64Mod : Nat := 2 ^ 64

/-- Logical contents of one slot's `UnsafeCell<MaybeUninit<T>>` storage. -/
inductive SlotStorage (T : Type) where
  | uninit : SlotStorage T
  | live : T → SlotStorage T
  | destroyed : SlotStorage T
deriving DecidableEq

/-- Shallow embedding of the state of `UnsafeArcArray<N, T>`:
`ref_counts` is the array of `AtomicU64` reference counts, `items` the
array of `UnsafeCell<MaybeUninit<T>>` storage cells. -/
structure ArcArray (N : Nat) (T : Type) where
  ref_counts : Fin N → Nat
  items : Fin N → SlotStorage T

/-- Embedding of `UnsafeArcArray::new`: all reference counts `0`, all storage
cells uninitialized. -/
def ArcArray.new (N : Nat) (T : Type) : ArcArray N T :=
  { ref_counts := fun _ => 0, items := fun _ => SlotStorage.uninit }

/-- Rust `std::sync::atomic::Ordering` values. -/
inductive MemOrd where
  | relaxed : MemOrd
  | acquire : MemOrd
  | release : MemOrd
  | acqRel : MemOrd
  | seqCst : MemOrd
deriving DecidableEq

/-- Whether an ordering includes release semantics on the write side. -/
def MemOrd.hasRelease : MemOrd → Bool
  | MemOrd.release => true
  | MemOrd.acqRel => true
  | MemOrd.seqCst => true
  | _ => false

/-- Whether an ordering includes acquire semantics on the read side. -/
def MemOrd.hasAcquire : MemOrd → Bool
  | MemOrd.acquire => true
  | MemOrd.acqRel => true
  | MemOrd.seqCst => true
  | _ => false

/-- Success ordering of the claiming `compare_exchange(0, 1, AcqRel, Relaxed)`
in `acquire_and_init` (`arc_array.rs` line 22). -/
def casSuccessOrd : MemOrd := MemOrd.acqRel

/-- Failure ordering of the claiming `compare_exchange` in `acquire_and_init`. -/
def casFailureOrd : MemOrd := MemOrd.relaxed

/-- Ordering of the `fetch_sub(1, Relaxed)` in `dec_count`. -/
def decFetchSubOrd : MemOrd := MemOrd.relaxed

/-- Ordering of the `fence` executed in `dec_count` right before
`assume_init_drop` at the 1-to-0 transition (`arc_array.rs` line 53). -/
def decDropFenceOrd : MemOrd := MemOrd.acquire

/-- Ordering of the `fetch_add(1, Relaxed)` in `inc_count`. -/
def incFetchAddOrd : MemOrd := MemOrd.relaxed

/-- The scan loop of `acquire_and_init`: starting at index `k`, find the first
slot whose reference count is `0` (the slot the `compare_exchange` from `0`
succeeds on). `d` is structural fuel; with `d = N` and `k = 0` it covers the
whole `for` loop over `0..N`. -/
def scanAux {N : Nat} (counts : Fin N → Nat) : Nat → Nat → Option (Fin N)
  | 0, _ => none
  | d + 1, k =>
    if h : k < N then
      if counts ⟨k, h⟩ = 0 then some ⟨k, h⟩ else scanAux counts d (k + 1)
    else none

/-- Index of the first slot whose reference count is `0`, scanning the whole
array in increasing index order. -/
def firstFree {N : Nat} {T : Type} (a : ArcArray N T) : Option (Fin N) :=
  scanAux a.ref_counts N 0

/-- Embedding of `UnsafeArcArray::acquire_and_init`. The scan claims the first
slot whose count CASes from `0` to `1`; on success the initializer runs and
its result is written into that slot's storage. The initializer is a
state-threading function `σ → T × σ`, so a success runs it exactly once and
a failure does not run it at all, exactly as the source's `FnOnce`. -/
def acquire_and_init {N : Nat} {T : Type} {σ : Type} (a : ArcArray N T)
    (init : σ → T × σ) (s : σ) : Option (Fin N) × ArcArray N T × σ :=
  match firstFree a with
  | some i =>
      let r := init s
      (some i,
       { ref_counts := Function.update a.ref_counts i 1,
         items := Function.update a.items i (SlotStorage.live r.1) },
       r.2)
  | none => (none, a, s)

/-- Embedding of `UnsafeArcArray::get_ref`: returns the stored value when the
slot holds a live value; `none` models the undefined behavior of
`assume_init_ref` on an uninitialized or dropped slot (and the bounds panic
of `self.items[index]`). It reads the state without modifying it. -/
def get_ref {N : Nat} {T : Type} (a : ArcArray N T) (index : Nat) : Option T :=
  if h : index < N then
    match a.items ⟨index, h⟩ with
    | SlotStorage.live v => some v
    | _ => none
  else none

/-- The Rust panic sites of `inc_count` / `dec_count`. -/
inductive PanicKind where
  | boundsAssert : PanicKind
  | debugAssert : PanicKind
deriving DecidableEq

/-- Result of one `inc_count` / `dec_count` call: the state after the call,
which panic fired (if any), the counter value observed by the
read-modify-write, and whether the stored value was dropped in place. -/
structure OpResult (N : Nat) (T : Type) where
  state : ArcArray N T
  panic : Option PanicKind
  prev : Nat
  dropped : Bool

/-- Embedding of `UnsafeArcArray::dec_count`. In source order: the
`assert!(index < N)` bounds check (active in every build), the wrapping
`fetch_sub(1, Relaxed)`, the `debug_assert!(prev_count > 0)` (compiled in
only when `debug` is true), and the in-place drop when the observed prior
count was exactly `1`. -/
def dec_count {N : Nat} {T : Type} (debug : Bool) (a : ArcArray N T)
    (index : Nat) : OpResult N T :=
  if h : index < N then
    let i : Fin N := ⟨index, h⟩
    let prev_count := a.ref_counts i
    let a1 : ArcArray N T :=
      { a with ref_counts :=
          Function.update a.ref_counts i ((prev_count + (u64Mod - 1)) % u64Mod) }
    if debug = true ∧ prev_count = 0 then
      { state := a1, panic := some PanicKind.debugAssert, prev := prev_count,
        dropped := false }
    else if prev_count = 1 then
      { state := { a1 with items := Function.update a1.items i SlotStorage.destroyed },
        panic := none, prev := prev_count, dropped := true }
    else
      { state := a1, panic := none, prev := prev_count, dropped := false }
  else
    { state := a, panic := some PanicKind.boundsAssert, prev := 0, dropped := false }

/-- Embedding of `UnsafeArcArray::inc_count`: a wrapping
`fetch_add(1, Relaxed)` on the slot's counter; an out-of-bounds index hits
the array bounds check of `self.ref_counts[index]` and panics. -/
def inc_count {N : Nat} {T : Type} (a : ArcArray N T) (index : Nat) : OpResult N T :=
  if h : index < N then
    let i : Fin N := ⟨index, h⟩
    let a1 : ArcArray N T :=
      { a with ref_counts := Function.update a.ref_counts i ((a.ref_counts i + 1) % u64Mod) }
    { state := a1, panic := none, prev := a.ref_counts i, dropped := false }
  else
    { state := a, panic := some PanicKind.boundsAssert, prev := 0, dropped := false }

/-! Basic facts about the acquisition scan. -/

theorem scanAux_some {N : Nat} (counts : Fin N → Nat) :
    ∀ (d k : Nat) (i : Fin N), scanAux counts d k = some i →
      counts i = 0 ∧ k ≤ i.val ∧ ∀ j : Fin N, k ≤ j.val → j.val < i.val → counts j ≠ 0 := by
  intro d
  induction d with
  | zero => intro k i h; simp [scanAux] at h
  | succ d ih =>
    intro k i h
    simp only [scanAux] at h
    by_cases hk : k < N
    · rw [dif_pos hk] at h
      by_cases hz : counts ⟨k, hk⟩ = 0
      · rw [if_pos hz] at h
        obtain rfl : (⟨k, hk⟩ : Fin N) = i := Option.some.inj h
        exact ⟨hz, Nat.le_refl k, fun j h1 h2 => absurd (Nat.lt_of_le_of_lt h1 h2) (Nat.lt_irrefl k)⟩
      · rw [if_neg hz] at h
        obtain ⟨h0, hle, hfirst⟩ := ih (k + 1) i h
        refine ⟨h0, Nat.le_of_succ_le hle, fun j h1 h2 => ?_⟩
        rcases Nat.eq_or_lt_of_le h1 with heq | hlt
        · have : j = ⟨k, hk⟩ := Fin.ext heq.symm
          rw [this]; exact hz
        · exact hfirst j hlt h2
    · rw [dif_neg hk] at h; exact absurd h (by simp)

theorem scanAux_none {N : Nat} (counts : Fin N → Nat) :
    ∀ (d k : Nat), N ≤ d + k → scanAux counts d k = none →
      ∀ j : Fin N, k ≤ j.val → counts j ≠ 0 := by
  intro d
  induction d with
  | zero => intro k hN _ j hj; have := j.isLt; omega
  | succ d ih =>
    intro k hN h j hj
    simp only [scanAux] at h
    by_cases hk : k < N
    · rw [dif_pos hk] at h
      by_cases hz : counts ⟨k, hk⟩ = 0
      · rw [if_pos hz] at h; exact absurd h (by simp)
      · rw [if_neg hz] at h
        rcases Nat.eq_or_lt_of_le hj with heq | hlt
        · have : j = ⟨k, hk⟩ := Fin.ext heq.symm
          rw [this]; exact hz
        · exact ih (k + 1) (by omega) h j hlt
    · exact absurd (Nat.lt_of_lt_of_le j.isLt (Nat.not_lt.mp hk)) (Nat.not_lt.mpr hj)

theorem scanAux_none_of {N : Nat} (counts : Fin N → Nat) :
    ∀ (d k : Nat), (∀ j : Fin N, k ≤ j.val → counts j ≠ 0) → scanAux counts d k = none := by
  intro d
  induction d with
  | zero => intro k _; simp [scanAux]
  | succ d ih =>
    intro k h
    simp only [scanAux]
    by_cases hk : k < N
    · rw [dif_pos hk, if_neg (h ⟨k, hk⟩ (Nat.le_refl k)), ih (k + 1)]
      intro j hj; exact h j (Nat.le_of_succ_le hj)
    · rw [dif_neg hk]

theorem scanAux_some_of {N : Nat} (counts : Fin N → Nat) :
    ∀ (d k : Nat) (i : Fin N), N ≤ d + k → k ≤ i.val → counts i = 0 →
      (∀ j : Fin N, k ≤ j.val → j.val < i.val → counts j ≠ 0) →
      scanAux counts d k = some i := by
  intro d
  induction d with
  | zero => intro k i hN hk _ _; exact absurd (Nat.lt_of_lt_of_le i.isLt hN) (by omega)
  | succ d ih =>
    intro k i hN hk h0 hfirst
    have hkN : k < N := Nat.lt_of_le_of_lt hk i.isLt
    simp only [scanAux]
    rw [dif_pos hkN]
    by_cases hz : counts ⟨k, hkN⟩ = 0
    · rw [if_pos hz]
      have : i = ⟨k, hkN⟩ := by
        rcases Nat.eq_or_lt_of_le hk with heq | hlt
        · exact Fin.ext heq.symm
        · exact absurd hz (hfirst ⟨k, hkN⟩ (Nat.le_refl k) hlt)
      rw [this]
    · rw [if_neg hz]
      have hki : k ≠ i.val := by
        intro heq; exact hz (by rwa [show (⟨k, hkN⟩ : Fin N) = i from Fin.ext heq])
      exact ih (k + 1) i (by omega) (by omega) h0
        (fun j h1 h2 => hfirst j (Nat.le_of_succ_le h1) h2)

theorem firstFree_some {N : Nat} {T : Type} {a : ArcArray N T} {i : Fin N}
    (h : firstFree a = some i) :
    a.ref_counts i = 0 ∧ ∀ j : Fin N, j.val < i.val → a.ref_counts j ≠ 0 := by
  obtain ⟨h0, _, hf⟩ := scanAux_some a.ref_counts N 0 i h
  exact ⟨h0, fun j hj => hf j (Nat.zero_le _) hj⟩

theorem firstFree_none {N : Nat} {T : Type} {a : ArcArray N T}
    (h : firstFree a = none) : ∀ j : Fin N, a.ref_counts j ≠ 0 :=
  fun j => scanAux_none a.ref_counts N 0 (by omega) h j (Nat.zero_le _)

theorem firstFree_none_of {N : Nat} {T : Type} {a : ArcArray N T}
    (h : ∀ j : Fin N, a.ref_counts j ≠ 0) : firstFree a = none :=
  scanAux_none_of a.ref_counts N 0 (fun j _ => h j)

theorem firstFree_some_of {N : Nat} {T : Type} {a : ArcArray N T} {i : Fin N}
    (h0 : a.ref_counts i = 0) (hfirst : ∀ j : Fin N, j.val < i.val → a.ref_counts j ≠ 0) :
    firstFree a = some i :=
  scanAux_some_of a.ref_counts N 0 i (by omega) (Nat.zero_le _) h0
    (fun j _ hj => hfirst j hj)

theorem acquire_fst {N : Nat} {T σ : Type} (a : ArcArray N T) (init : σ → T × σ) (s : σ) :
    (acquire_and_init a init s).1 = firstFree a := by
  unfold acquire_and_init
  cases firstFree a <;> rfl

theorem acquire_of_firstFree_some {N : Nat} {T σ : Type} {a : ArcArray N T}
    (init : σ → T × σ) (s : σ) {i : Fin N} (h : firstFree a = some i) :
    acquire_and_init a init s =
      (some i,
       { ref_counts := Function.update a.ref_counts i 1,
         items := Function.update a.items i (SlotStorage.live (init s).1) },
       (init s).2) := by
  unfold acquire_and_init
  rw [h]

theorem acquire_of_firstFree_none {N : Nat} {T σ : Type} {a : ArcArray N T}
    (init : σ → T × σ) (s : σ) (h : firstFree a = none) :
    acquire_and_init a init s = (none, a, s) := by
  unfold acquire_and_init
  rw [h]

/-- C3: `acquire_and_init` scans slots in increasing index order and claims the
first slot whose refcount is 0: it returns `some i` where `i` is the smallest
index with refcount 0, after which that slot's refcount is 1 and its storage
holds the initializer's result; it returns `none` if and only if every slot's
refcount is nonzero, in which case the state is unchanged. -/
theorem C3_acquire_first_free {N : Nat} {T σ : Type} (a : ArcArray N T)
    (init : σ → T × σ) (s : σ) :
    (∀ i : Fin N, (acquire_and_init a init s).1 = some i →
       a.ref_counts i = 0 ∧ (∀ j : Fin N, j.val < i.val → a.ref_counts j ≠ 0) ∧
       (acquire_and_init a init s).2.1.ref_counts i = 1 ∧
       (acquire_and_init a init s).2.1.items i = SlotStorage.live (init s).1) ∧
    ((acquire_and_init a init s).1 = none ↔ ∀ j : Fin N, a.ref_counts j ≠ 0) ∧
    ((acquire_and_init a init s).1 = none → (acquire_and_init a init s).2.1 = a) := by
  cases h : firstFree a with
  | some i0 =>
    rw [acquire_of_firstFree_some init s h]
    obtain ⟨h0, hfirst⟩ := firstFree_some h
    refine ⟨?_, ?_, ?_⟩
    · intro i hi
      obtain rfl : i0 = i := Option.some.inj hi
      exact ⟨h0, hfirst, by simp, by simp⟩
    · constructor
      · intro hcontra; exact absurd hcontra (by simp)
      · intro hall; exact absurd h0 (hall i0)
    · intro hcontra; exact absurd hcontra (by simp)
  | none =>
    rw [acquire_of_firstFree_none init s h]
    exact ⟨fun i hi => absurd hi (by simp), ⟨fun _ => firstFree_none h, fun _ => rfl⟩,
      fun _ => rfl⟩

/-- Concrete state used to exercise `C3_acquire_first_free`: capacity 2,
slot 0 busy, slot 1 free. -/
def w3 : ArcArray 2 Nat :=
  { ref_counts := fun j => if j.val = 0 then 1 else 0,
    items := fun j => if j.val = 0 then SlotStorage.live 7 else SlotStorage.uninit }

theorem C3_acquire_first_free_witness :
    w3.ref_counts ⟨1, by omega⟩ = 0 ∧
    (∀ j : Fin 2, j.val < 1 → w3.ref_counts j ≠ 0) ∧
    (acquire_and_init w3 (fun _ : Unit => (5, ())) ()).2.1.ref_counts ⟨1, by omega⟩ = 1 ∧
    (acquire_and_init w3 (fun _ : Unit => (5, ())) ()).2.1.items ⟨1, by omega⟩ =
      SlotStorage.live 5 :=
  (C3_acquire_first_free w3 (fun _ : Unit => (5, ())) ()).1 ⟨1, by omega⟩ (by decide)

/-- C6: the initializer passed to `acquire_and_init` runs exactly once when the
call returns `some` and never runs when the call returns `none`. With a
counting initializer the thread-through counter increases by exactly one on
success and is untouched on exhaustion; for an arbitrary initializer the
threaded state is returned unchanged whenever the call returns `none`. -/
theorem C6_init_runs_once {N : Nat} {T σ : Type} (a : ArcArray N T) :
    (∀ (v : T) (c : Nat),
       (acquire_and_init a (fun n => (v, n + 1)) c).2.2 =
         c + (if (acquire_and_init a (fun n => (v, n + 1)) c).1.isSome then 1 else 0)) ∧
    (∀ (init : σ → T × σ) (s : σ),
       ((acquire_and_init a init s).1.isSome = true →
          (acquire_and_init a init s).2.2 = (init s).2) ∧
       ((acquire_and_init a init s).1 = none → (acquire_and_init a init s).2.2 = s)) := by
  cases h : firstFree a with
  | some i0 =>
    constructor
    · intro v c
      rw [acquire_of_firstFree_some (fun n => (v, n + 1)) c h]
      simp
    · intro init s
      rw [acquire_of_firstFree_some init s h]
      exact ⟨fun _ => rfl, fun hcontra => absurd hcontra (by simp)⟩
  | none =>
    constructor
    · intro v c
      rw [acquire_of_firstFree_none (fun n => (v, n + 1)) c h]
      simp
    · intro init s
      rw [acquire_of_firstFree_none init s h]
      exact ⟨fun hcontra => by simp at hcontra, fun _ => rfl⟩

theorem C6_init_runs_once_witness :
    (acquire_and_init (ArcArray.new 1 Nat) (fun n : Nat => ((9 : Nat), n + 1)) 0).2.2 =
      0 + (if (acquire_and_init (ArcArray.new 1 Nat)
                 (fun n : Nat => ((9 : Nat), n + 1)) 0).1.isSome then 1 else 0) ∧
    (acquire_and_init (ArcArray.new 1 Nat) (fun n : Nat => ((9 : Nat), n + 1)) 0).2.2 =
      ((fun n : Nat => ((9 : Nat), n + 1)) 0).2 :=
  ⟨(@C6_init_runs_once 1 Nat Nat (ArcArray.new 1 Nat)).1 9 0,
   ((@C6_init_runs_once 1 Nat Nat (ArcArray.new 1 Nat)).2 (fun n : Nat => ((9 : Nat), n + 1)) 0).1
     (by decide)⟩

/-- C4: with debug assertions compiled in, `dec_count` on an in-bounds index
fails the `debug_assert!(prev_count > 0)` if and only if the counter value
observed before the subtraction was 0, and otherwise does not panic. -/
theorem C4_dec_debug_assert {N : Nat} {T : Type} (a : ArcArray N T) (index : Nat)
    (h : index < N) :
    ((dec_count true a index).panic = some PanicKind.debugAssert ↔
       a.ref_counts ⟨index, h⟩ = 0) ∧
    ((dec_count true a index).panic = none ↔ a.ref_counts ⟨index, h⟩ ≠ 0) := by
  unfold dec_count
  rw [dif_pos h]
  by_cases h0 : a.ref_counts ⟨index, h⟩ = 0
  · rw [if_pos ⟨rfl, h0⟩]
    simp [h0]
  · rw [if_neg (by simp [h0])]
    by_cases h1 : a.ref_counts ⟨index, h⟩ = 1
    · rw [if_pos h1]; simp [h0]
    · rw [if_neg h1]; simp [h0]

theorem C4_dec_debug_assert_witness :
    ((dec_count true (ArcArray.new 1 Nat) 0).panic = some PanicKind.debugAssert ↔
       (ArcArray.new 1 Nat).ref_counts ⟨0, by omega⟩ = 0) ∧
    ((dec_count true (ArcArray.new 1 Nat) 0).panic = none ↔
       (ArcArray.new 1 Nat).ref_counts ⟨0, by omega⟩ ≠ 0) :=
  C4_dec_debug_assert (ArcArray.new 1 Nat) 0 (by omega)

/-- C9: for an index at or beyond the capacity, `inc_count` panics on the
bounds check of the refcount array and `dec_count` panics on its
`assert!(index < N)` in every build (both debug values), and in both cases
the state is returned unchanged and nothing is dropped. -/
theorem C9_out_of_bounds_panics {N : Nat} {T : Type} (a : ArcArray N T) (index : Nat)
    (h : N ≤ index) (debug : Bool) :
    inc_count a index = ⟨a, some PanicKind.boundsAssert, 0, false⟩ ∧
    dec_count debug a index = ⟨a, some PanicKind.boundsAssert, 0, false⟩ := by
  have h' : ¬ index < N := by omega
  constructor
  · unfold inc_count; rw [dif_neg h']
  · unfold dec_count; rw [dif_neg h']

theorem C9_out_of_bounds_panics_witness :
    inc_count (ArcArray.new 1 Nat) 3 =
      ⟨ArcArray.new 1 Nat, some PanicKind.boundsAssert, 0, false⟩ ∧
    dec_count false (ArcArray.new 1 Nat) 3 =
      ⟨ArcArray.new 1 Nat, some PanicKind.boundsAssert, 0, false⟩ :=
  C9_out_of_bounds_panics (ArcArray.new 1 Nat) 3 (by omega) false

/-- C10: in a build without debug assertions, `dec_count` on an in-bounds slot
whose refcount is 0 does not panic and destroys nothing; the wrapping
`fetch_sub` leaves the counter at `2 ^ 64 - 1`, so a subsequent
`acquire_and_init` can never claim that slot (its compare-exchange from 0
fails there). -/
theorem C10_release_underflow_wraps {N : Nat} {T : Type} (a : ArcArray N T) (index : Nat)
    (h : index < N) (h0 : a.ref_counts ⟨index, h⟩ = 0) :
    (dec_count false a index).panic = none ∧
    (dec_count false a index).dropped = false ∧
    (dec_count false a index).state.items = a.items ∧
    (dec_count false a index).state.ref_counts ⟨index, h⟩ = u64Mod - 1 ∧
    (∀ (σ : Type) (init : σ → T × σ) (s : σ),
       (acquire_and_init (dec_count false a index).state init s).1 ≠ some ⟨index, h⟩) := by
  unfold dec_count
  rw [dif_pos h, if_neg (by simp), if_neg (by rw [h0]; omega)]
  have hlt : u64Mod - 1 < u64Mod := by norm_num [u64Mod]
  refine ⟨rfl, rfl, rfl, ?_, ?_⟩
  · simp only [Function.update_same, h0, Nat.zero_add, Nat.mod_eq_of_lt hlt]
  · intro σ init s hcontra
    rw [acquire_fst] at hcontra
    have hz := (firstFree_some hcontra).1
    simp only [Function.update_same, h0, Nat.zero_add, Nat.mod_eq_of_lt hlt] at hz
    norm_num [u64Mod] at hz

theorem C10_release_underflow_wraps_witness :
    (dec_count false (ArcArray.new 1 Nat) 0).panic = none ∧
    (dec_count false (ArcArray.new 1 Nat) 0).dropped = false ∧
    (dec_count false (ArcArray.new 1 Nat) 0).state.items = (ArcArray.new 1 Nat).items ∧
    (dec_count false (ArcArray.new 1 Nat) 0).state.ref_counts ⟨0, by omega⟩ = u64Mod - 1 ∧
    (∀ (σ : Type) (init : σ → Nat × σ) (s : σ),
       (acquire_and_init (dec_count false (ArcArray.new 1 Nat) 0).state init s).1 ≠
         some ⟨0, by omega⟩) :=
  C10_release_underflow_wraps (ArcArray.new 1 Nat) 0 (by omega) (by decide)

/-- C8: the claiming compare-exchange of `acquire_and_init` uses the
acquire-and-release ordering on success (a release-bearing read-modify-write,
strictly stronger than plain acquire) with relaxed failure ordering, and the
fence `dec_count` runs before the in-place drop at the 1-to-0 transition is an
acquire fence; these are the annotations whose pairing publishes the
constructed value to the destroyer. -/
theorem C8_claiming_cas_orderings :
    casSuccessOrd = MemOrd.acqRel ∧
    casSuccessOrd.hasRelease = true ∧
    casSuccessOrd.hasAcquire = true ∧
    casFailureOrd = MemOrd.relaxed ∧
    decDropFenceOrd = MemOrd.acquire ∧
    decDropFenceOrd.hasAcquire = true := by
  exact ⟨rfl, rfl, rfl, rfl, rfl, rfl⟩

/-! Equation lemmas for the in-bounds cases of `inc_count` / `dec_count`. -/

theorem inc_count_in {N : Nat} {T : Type} (a : ArcArray N T) (i : Fin N) :
    inc_count a i.val =
      ⟨{ a with ref_counts := Function.update a.ref_counts i ((a.ref_counts i + 1) % u64Mod) },
       none, a.ref_counts i, false⟩ := by
  unfold inc_count
  rw [dif_pos i.isLt]

theorem decWrap {c : Nat} (h1 : 1 ≤ c) (h2 : c < u64Mod) :
    (c + (u64Mod - 1)) % u64Mod = c - 1 := by
  have hpos : 0 < u64Mod := by norm_num [u64Mod]
  have h3 : c + (u64Mod - 1) = u64Mod + (c - 1) := by omega
  rw [h3, Nat.add_mod_left, Nat.mod_eq_of_lt (by omega)]

theorem dec_count_in_one {N : Nat} {T : Type} (debug : Bool) (a : ArcArray N T) (i : Fin N)
    (h1 : a.ref_counts i = 1) :
    dec_count debug a i.val =
      ⟨{ ref_counts := Function.update a.ref_counts i 0,
         items := Function.update a.items i SlotStorage.destroyed }, none, 1, true⟩ := by
  have h' : ((1 : Nat) + (u64Mod - 1)) % u64Mod = 0 := by
    have hpos : 0 < u64Mod := by norm_num [u64Mod]
    have : 1 + (u64Mod - 1) = u64Mod := by omega
    rw [this, Nat.mod_self]
  unfold dec_count
  rw [dif_pos i.isLt]
  simp only [Fin.eta, h1, h']
  simp

theorem dec_count_in_many {N : Nat} {T : Type} (debug : Bool) (a : ArcArray N T) (i : Fin N)
    (h2 : 2 ≤ a.ref_counts i) (hlt : a.ref_counts i < u64Mod) :
    dec_count debug a i.val =
      ⟨{ a with ref_counts := Function.update a.ref_counts i (a.ref_counts i - 1) },
       none, a.ref_counts i, false⟩ := by
  unfold dec_count
  rw [dif_pos i.isLt]
  simp only [Fin.eta, decWrap (by omega) hlt]
  rw [if_neg (by omega), if_neg (by omega)]

/-- C7: every operation is per-slot. `inc_count i` adds exactly one to slot
`i`'s refcount (modulo `2 ^ 64`; exactly one when no wrap occurs) and leaves
all storage and every other slot's refcount unchanged; `dec_count i` leaves
every other slot's refcount and storage unchanged; a successful
`acquire_and_init` claiming slot `i` leaves every other slot's refcount and
storage unchanged. -/
theorem C7_per_slot_frame {N : Nat} {T σ : Type} :
    (∀ (a : ArcArray N T) (i : Fin N),
       (inc_count a i.val).state.ref_counts i = (a.ref_counts i + 1) % u64Mod ∧
       (a.ref_counts i + 1 < u64Mod →
          (inc_count a i.val).state.ref_counts i = a.ref_counts i + 1) ∧
       (inc_count a i.val).state.items = a.items ∧
       (∀ j : Fin N, j ≠ i → (inc_count a i.val).state.ref_counts j = a.ref_counts j)) ∧
    (∀ (debug : Bool) (a : ArcArray N T) (i : Fin N) (j : Fin N), j ≠ i →
       (dec_count debug a i.val).state.ref_counts j = a.ref_counts j ∧
       (dec_count debug a i.val).state.items j = a.items j) ∧
    (∀ (a : ArcArray N T) (init : σ → T × σ) (s : σ) (i : Fin N),
       (acquire_and_init a init s).1 = some i →
       ∀ j : Fin N, j ≠ i →
         (acquire_and_init a init s).2.1.ref_counts j = a.ref_counts j ∧
         (acquire_and_init a init s).2.1.items j = a.items j) := by
  refine ⟨?_, ?_, ?_⟩
  · intro a i
    rw [inc_count_in]
    exact ⟨Function.update_same i _ _,
      fun hov => by simp only [Function.update_same, Nat.mod_eq_of_lt hov],
      rfl,
      fun j hj => Function.update_noteq hj _ _⟩
  · intro debug a i j hj
    unfold dec_count
    rw [dif_pos i.isLt]
    simp only [Fin.eta]
    by_cases hd : debug = true ∧ a.ref_counts i = 0
    · rw [if_pos hd]
      exact ⟨Function.update_noteq hj _ _, rfl⟩
    · rw [if_neg hd]
      by_cases h1 : a.ref_counts i = 1
      · rw [if_pos h1]
        exact ⟨Function.update_noteq hj _ _, Function.update_noteq hj _ _⟩
      · rw [if_neg h1]
        exact ⟨Function.update_noteq hj _ _, rfl⟩
  · intro a init s i hi j hj
    rw [acquire_fst] at hi
    rw [acquire_of_firstFree_some init s hi]
    exact ⟨Function.update_noteq hj _ _, Function.update_noteq hj _ _⟩

theorem C7_per_slot_frame_witness :
    (inc_count w3 0).state.ref_counts ⟨1, by omega⟩ = w3.ref_counts ⟨1, by omega⟩ ∧
    (dec_count true w3 0).state.ref_counts ⟨1, by omega⟩ = w3.ref_counts ⟨1, by omega⟩ ∧
    (dec_count true w3 0).state.items ⟨1, by omega⟩ = w3.items ⟨1, by omega⟩ :=
  ⟨((@C7_per_slot_frame 2 Nat Unit).1 w3 ⟨0, by omega⟩).2.2.2 ⟨1, by omega⟩ (by decide),
   ((@C7_per_slot_frame 2 Nat Unit).2.1 true w3 ⟨0, by omega⟩ ⟨1, by omega⟩ (by decide)).1,
   ((@C7_per_slot_frame 2 Nat Unit).2.1 true w3 ⟨0, by omega⟩ ⟨1, by omega⟩ (by decide)).2⟩

/-- `acquire_and_init` with an effect-free initializer producing `v`, keeping
only the returned index and the new state. -/
def pureAcquire {N : Nat} {T : Type} (a : ArcArray N T) (v : T) :
    Option (Fin N) × ArcArray N T :=
  let r := acquire_and_init a (fun _ : Unit => (v, ())) ()
  (r.1, r.2.1)

/-- State after `k` sequential `acquire_and_init` calls on a freshly
constructed table, the `j`-th initializer producing `f j`. -/
def acquireSeq {N : Nat} {T : Type} (f : Nat → T) : Nat → ArcArray N T
  | 0 => ArcArray.new N T
  | k + 1 => (pureAcquire (acquireSeq f k) (f k)).2

theorem acquireSeq_state {N : Nat} {T : Type} (f : Nat → T) :
    ∀ k, k ≤ N →
      (∀ i : Fin N, (acquireSeq (N := N) f k).ref_counts i = if i.val < k then 1 else 0) ∧
      (∀ i : Fin N, i.val < k →
        (acquireSeq (N := N) f k).items i = SlotStorage.live (f i.val)) := by
  intro k
  induction k with
  | zero => intro _; exact ⟨fun i => by simp [acquireSeq, ArcArray.new], fun i hi => by omega⟩
  | succ k ih =>
    intro hk
    obtain ⟨ihc, ihi⟩ := ih (by omega)
    have hkN : k < N := by omega
    have hff : firstFree (acquireSeq (N := N) f k) = some ⟨k, hkN⟩ := by
      apply firstFree_some_of
      · rw [ihc ⟨k, hkN⟩]; simp
      · intro j hj; rw [ihc j]; simp only [if_pos hj]; omega
    have hstep : acquireSeq (N := N) f (k + 1) =
        { ref_counts := Function.update (acquireSeq (N := N) f k).ref_counts ⟨k, hkN⟩ 1,
          items := Function.update (acquireSeq (N := N) f k).items ⟨k, hkN⟩
            (SlotStorage.live (f k)) } := by
      show (pureAcquire (acquireSeq (N := N) f k) (f k)).2 = _
      unfold pureAcquire
      rw [acquire_of_firstFree_some _ _ hff]
    constructor
    · intro i
      rw [hstep]
      by_cases hik : i = ⟨k, hkN⟩
      · rw [hik]
        simp only [Function.update_same]
        simp
      · have : i.val ≠ k := fun he => hik (Fin.ext he)
        simp only [Function.update_noteq hik, ihc i]
        rcases Nat.lt_trichotomy i.val k with h | h | h
        · rw [if_pos h, if_pos (by omega)]
        · omega
        · rw [if_neg (by omega), if_neg (by omega)]
    · intro i hi
      rw [hstep]
      by_cases hik : i = ⟨k, hkN⟩
      · rw [hik]
        simp only [Function.update_same]
      · have hne : i.val ≠ k := fun he => hik (Fin.ext he)
        simp only [Function.update_noteq hik]
        exact ihi i (by omega)

/-- C2: on a freshly constructed table of capacity `N`, the `(k+1)`-st of `N`
sequential `acquire_and_init` calls returns `some` (namely index `k`), the
`(N+1)`-st call returns `none`, and after one `dec_count` that takes slot `j`
from refcount 1 to 0 (destroying the old value), the next `acquire_and_init`
succeeds again, reuses that freed index `j`, and constructs the new value
there. -/
theorem C2_capacity_and_reuse {N : Nat} {T : Type} (f : Nat → T) (v' : T)
    (j : Nat) (hj : j < N) (debug : Bool) :
    (∀ k (hk : k < N), (pureAcquire (acquireSeq (N := N) f k) (f k)).1 = some ⟨k, hk⟩) ∧
    (pureAcquire (acquireSeq (N := N) f N) v').1 = none ∧
    (dec_count debug (acquireSeq (N := N) f N) j).prev = 1 ∧
    (dec_count debug (acquireSeq (N := N) f N) j).dropped = true ∧
    (pureAcquire (dec_count debug (acquireSeq (N := N) f N) j).state v').1 = some ⟨j, hj⟩ ∧
    (pureAcquire (dec_count debug (acquireSeq (N := N) f N) j).state v').2.items ⟨j, hj⟩ =
      SlotStorage.live v' := by
  have hfullc := (acquireSeq_state (N := N) f N (Nat.le_refl N)).1
  have hone : (acquireSeq (N := N) f N).ref_counts ⟨j, hj⟩ = 1 := by
    rw [hfullc ⟨j, hj⟩]; simp [hj]
  have hdec := dec_count_in_one debug (acquireSeq (N := N) f N) ⟨j, hj⟩ hone
  have hffj : firstFree (dec_count debug (acquireSeq (N := N) f N) j).state =
      some ⟨j, hj⟩ := by
    rw [hdec]
    apply firstFree_some_of
    · exact Function.update_same _ _ _
    · intro l hl
      show Function.update (acquireSeq (N := N) f N).ref_counts ⟨j, hj⟩ 0 l ≠ 0
      have hne : l ≠ (⟨j, hj⟩ : Fin N) := by
        intro he; rw [he] at hl; simp at hl
      rw [Function.update_noteq hne, hfullc l]
      simp only [if_pos l.isLt]
      omega
  refine ⟨?_, ?_, ?_, ?_, ?_, ?_⟩
  · intro k hk
    have hff : firstFree (acquireSeq (N := N) f k) = some ⟨k, hk⟩ := by
      obtain ⟨ihc, _⟩ := acquireSeq_state (N := N) f k (by omega)
      apply firstFree_some_of
      · rw [ihc ⟨k, hk⟩]; simp
      · intro l hl; rw [ihc l]; simp only [if_pos hl]; omega
    unfold pureAcquire
    rw [acquire_of_firstFree_some _ _ hff]
  · have hff : firstFree (acquireSeq (N := N) f N) = none := by
      apply firstFree_none_of
      intro l
      rw [hfullc l]
      simp [l.isLt]
    unfold pureAcquire
    rw [acquire_of_firstFree_none _ _ hff]
  · rw [hdec]
  · rw [hdec]
  · unfold pureAcquire
    rw [acquire_of_firstFree_some _ _ hffj]
  · unfold pureAcquire
    rw [acquire_of_firstFree_some _ _ hffj]
    exact Function.update_same _ _ _

theorem C2_capacity_and_reuse_witness :
    (pureAcquire (acquireSeq (N := 2) (fun n => n) 1) 1).1 = some ⟨1, by omega⟩ ∧
    (pureAcquire (acquireSeq (N := 2) (fun n => n) 2) 5).1 = none ∧
    (dec_count true (acquireSeq (N := 2) (fun n => n) 2) 0).prev = 1 ∧
    (dec_count true (acquireSeq (N := 2) (fun n => n) 2) 0).dropped = true ∧
    (pureAcquire (dec_count true (acquireSeq (N := 2) (fun n => n) 2) 0).state 5).1 =
      some ⟨0, by omega⟩ ∧
    (pureAcquire (dec_count true (acquireSeq (N := 2) (fun n => n) 2) 0).state 5).2.items
      ⟨0, by omega⟩ = SlotStorage.live 5 := by
  have h := C2_capacity_and_reuse (N := 2) (fun n => n) 5 0 (by omega) true
  exact ⟨h.1 1 (by omega), h.2.1, h.2.2.1, h.2.2.2.1, h.2.2.2.2.1, h.2.2.2.2.2⟩

/-- One reference-count operation on a fixed slot: an `inc_count` call or a
`dec_count` call. -/
inductive RcOp where
  | inc : RcOp
  | dec : RcOp
deriving DecidableEq

/-- Number of `dec_count` calls in an operation sequence. -/
def nDec : List RcOp → Nat
  | [] => 0
  | RcOp.dec :: r => nDec r + 1
  | RcOp.inc :: r => nDec r

/-- Number of `inc_count` calls in an operation sequence. -/
def nInc : List RcOp → Nat
  | [] => 0
  | RcOp.inc :: r => nInc r + 1
  | RcOp.dec :: r => nInc r

/-- Whether an interleaving of increments and decrements is one that handles
can produce: starting from `h` outstanding references, every operation is
performed while at least one reference is outstanding. -/
def legalRun : Nat → List RcOp → Bool
  | _, [] => true
  | h, RcOp.inc :: r => if 1 ≤ h then legalRun (h + 1) r else false
  | h, RcOp.dec :: r => if 1 ≤ h then legalRun (h - 1) r else false

/-- Run a sequence of `inc_count` / `dec_count` calls on slot `i`, returning
the final state and, for each executed `dec_count`, the pair (observed
pre-decrement count, whether the stored value was dropped in place). A panic
aborts the run. -/
def runRcOps {N : Nat} {T : Type} (debug : Bool) (i : Nat) :
    ArcArray N T → List RcOp → ArcArray N T × List (Nat × Bool)
  | a, [] => (a, [])
  | a, RcOp.inc :: rest =>
      let r := inc_count a i
      match r.panic with
      | some _ => (r.state, [])
      | none => runRcOps debug i r.state rest
  | a, RcOp.dec :: rest =>
      let r := dec_count debug a i
      match r.panic with
      | some _ => (r.state, [(r.prev, r.dropped)])
      | none =>
          let t := runRcOps debug i r.state rest
          (t.1, (r.prev, r.dropped) :: t.2)

theorem inc_panic_none {N : Nat} {T : Type} (a : ArcArray N T) (i : Fin N) :
    (inc_count a i.val).panic = none := by
  rw [inc_count_in]

theorem inc_state_counts_self {N : Nat} {T : Type} (a : ArcArray N T) (i : Fin N) :
    (inc_count a i.val).state.ref_counts i = (a.ref_counts i + 1) % u64Mod := by
  rw [inc_count_in]
  exact Function.update_same _ _ _

theorem inc_state_items {N : Nat} {T : Type} (a : ArcArray N T) (i : Fin N) :
    (inc_count a i.val).state.items = a.items := by
  rw [inc_count_in]

theorem runRcOps_cons_inc {N : Nat} {T : Type} (debug : Bool) (i : Fin N)
    (a : ArcArray N T) (rest : List RcOp) :
    runRcOps debug i.val a (RcOp.inc :: rest) =
      runRcOps debug i.val (inc_count a i.val).state rest := by
  simp only [runRcOps]
  rw [inc_panic_none a i]

theorem runRcOps_cons_dec {N : Nat} {T : Type} (debug : Bool) (i : Fin N)
    (a : ArcArray N T) (rest : List RcOp)
    (hpanic : (dec_count debug a i.val).panic = none) :
    runRcOps debug i.val a (RcOp.dec :: rest) =
      ((runRcOps debug i.val (dec_count debug a i.val).state rest).1,
       ((dec_count debug a i.val).prev, (dec_count debug a i.val).dropped) ::
         (runRcOps debug i.val (dec_count debug a i.val).state rest).2) := by
  simp only [runRcOps]
  rw [hpanic]

theorem runRcOps_core {N : Nat} {T : Type} (debug : Bool) (i : Fin N) (v : T) :
    ∀ (ops : List RcOp) (a : ArcArray N T),
      a.items i = SlotStorage.live v →
      1 ≤ a.ref_counts i →
      a.ref_counts i + nInc ops < u64Mod →
      nDec ops = nInc ops + a.ref_counts i →
      legalRun (a.ref_counts i) ops = true →
      ∃ l', (runRcOps debug i.val a ops).2 = l' ++ [(1, true)] ∧
            ∀ e ∈ l', 1 < e.1 ∧ e.2 = false := by
  intro ops
  induction ops with
  | nil =>
    intro a _ h1 _ htot _
    exfalso
    simp only [nDec, nInc, Nat.zero_add] at htot
    omega
  | cons op rest ih =>
    intro a hlive h1 hov htot hleg
    cases op with
    | inc =>
      have hndec : nDec (RcOp.inc :: rest) = nDec rest := rfl
      have hninc : nInc (RcOp.inc :: rest) = nInc rest + 1 := rfl
      rw [hndec] at htot
      rw [hninc] at htot hov
      have hmod : (a.ref_counts i + 1) % u64Mod = a.ref_counts i + 1 :=
        Nat.mod_eq_of_lt (by omega)
      have hst_c : (inc_count a i.val).state.ref_counts i = a.ref_counts i + 1 := by
        rw [inc_state_counts_self, hmod]
      have hleg' : legalRun (a.ref_counts i + 1) rest = true := by
        simp only [legalRun, if_pos h1] at hleg
        exact hleg
      rw [runRcOps_cons_inc debug i a rest]
      refine ih (inc_count a i.val).state ?_ ?_ ?_ ?_ ?_
      · rw [inc_state_items]; exact hlive
      · rw [hst_c]; omega
      · rw [hst_c]; omega
      · rw [hst_c]; omega
      · rw [hst_c]; exact hleg'
    | dec =>
      have hndec : nDec (RcOp.dec :: rest) = nDec rest + 1 := rfl
      have hninc : nInc (RcOp.dec :: rest) = nInc rest := rfl
      rw [hndec] at htot
      rw [hninc] at htot hov
      have hleg' : legalRun (a.ref_counts i - 1) rest = true := by
        simp only [legalRun, if_pos h1] at hleg
        exact hleg
      rcases (by omega : a.ref_counts i = 1 ∨ 2 ≤ a.ref_counts i) with h1' | h2
      · have hrest : rest = [] := by
          cases rest with
          | nil => rfl
          | cons op2 r2 =>
            rw [h1'] at hleg'
            cases op2 <;> simp [legalRun] at hleg'
        subst hrest
        have hdec := dec_count_in_one debug a i h1'
        rw [runRcOps_cons_dec debug i a [] (by rw [hdec])]
        refine ⟨[], ?_, by simp⟩
        rw [hdec]
        rfl
      · have hlt : a.ref_counts i < u64Mod := by omega
        have hdec := dec_count_in_many debug a i h2 hlt
        have hst_c : (dec_count debug a i.val).state.ref_counts i = a.ref_counts i - 1 := by
          rw [hdec]
          exact Function.update_same _ _ _
        have hst_items : (dec_count debug a i.val).state.items i = SlotStorage.live v := by
          rw [hdec]
          exact hlive
        rw [runRcOps_cons_dec debug i a rest (by rw [hdec])]
        obtain ⟨l'', hl2, hprops⟩ :=
          ih (dec_count debug a i.val).state hst_items
            (by rw [hst_c]; omega) (by rw [hst_c]; omega) (by rw [hst_c]; omega)
            (by rw [hst_c]; exact hleg')
        refine ⟨(a.ref_counts i, false) :: l'', ?_, ?_⟩
        · show ((dec_count debug a i.val).prev, (dec_count debug a i.val).dropped) ::
            (runRcOps debug i.val (dec_count debug a i.val).state rest).2 = _
          rw [hl2, hdec]
          rfl
        · intro e he
          rcases List.mem_cons.mp he with he1 | he2
          · rw [he1]; exact ⟨by omega, rfl⟩
          · exact hprops e he2

/-- C1: for a slot just claimed by a successful `acquire_and_init` (refcount 1,
live value in storage), across any interleaving of `inc_count` and `dec_count`
calls that handles can produce (every call made while a reference is
outstanding, encoded by `legalRun`) in which the number of decrements equals
the number of increments plus the one implicit increment from acquisition, the
stored value is dropped in place exactly once, and exactly at the `dec_count`
call whose observed pre-decrement count was 1 (necessarily the final call);
every `dec_count` that observes a prior count greater than 1 performs no
destruction and leaves every storage cell unchanged. -/
theorem C1_single_destruction {N : Nat} {T : Type} :
    (∀ (debug : Bool) (i : Fin N) (v : T) (ops : List RcOp) (a : ArcArray N T),
       a.ref_counts i = 1 →
       a.items i = SlotStorage.live v →
       1 + nInc ops < u64Mod →
       nDec ops = nInc ops + 1 →
       legalRun 1 ops = true →
       ∃ l', (runRcOps debug i.val a ops).2 = l' ++ [(1, true)] ∧
             ∀ e ∈ l', 1 < e.1 ∧ e.2 = false) ∧
    (∀ (debug : Bool) (b : ArcArray N T) (i : Fin N), 1 < b.ref_counts i →
       (dec_count debug b i.val).prev = b.ref_counts i ∧
       (dec_count debug b i.val).dropped = false ∧
       (dec_count debug b i.val).state.items = b.items) := by
  constructor
  · intro debug i v ops a h1 hlive hov htot hleg
    exact runRcOps_core debug i v ops a hlive (by omega)
      (by rw [h1]; omega) (by rw [h1]; omega) (by rw [h1]; exact hleg)
  · intro debug b i hgt
    unfold dec_count
    rw [dif_pos i.isLt]
    simp only [Fin.eta]
    rw [if_neg (by omega), if_neg (by omega)]
    exact ⟨rfl, rfl, rfl⟩

/-- Concrete slot state used to exercise `C1_single_destruction`: one slot,
refcount 1, live value 4. -/
def w1 : ArcArray 1 Nat :=
  { ref_counts := fun _ => 1, items := fun _ => SlotStorage.live 4 }

theorem C1_single_destruction_witness :
    ∃ l', (runRcOps true 0 w1 [RcOp.inc, RcOp.dec, RcOp.dec]).2 = l' ++ [(1, true)] ∧
          ∀ e ∈ l', 1 < e.1 ∧ e.2 = false :=
  (@C1_single_destruction 1 Nat).1 true ⟨0, by omega⟩ 4 [RcOp.inc, RcOp.dec, RcOp.dec] w1
    (by decide) (by decide) (by decide) (by decide) (by decide)

/-- States reachable from a given state by the registry's operations used
according to the handle protocol: `acquire_and_init` freely; `inc_count` and
`dec_count` only on a slot the caller holds a reference on (refcount at least
1), with `inc_count` additionally not overflowing the 64-bit counter. -/
inductive Reach {N : Nat} {T : Type} : ArcArray N T → ArcArray N T → Prop where
  | refl (a : ArcArray N T) : Reach a a
  | acquire {a b : ArcArray N T} {σ : Type} (init : σ → T × σ) (s : σ)
      (hr : Reach a b) : Reach a (acquire_and_init b init s).2.1
  | inc {a b : ArcArray N T} (i : Fin N) (hr : Reach a b)
      (hpos : 1 ≤ b.ref_counts i) (hov : b.ref_counts i + 1 < u64Mod) :
      Reach a (inc_count b i.val).state
  | dec {a b : ArcArray N T} (debug : Bool) (i : Fin N) (hr : Reach a b)
      (hpos : 1 ≤ b.ref_counts i) :
      Reach a (dec_count debug b i.val).state

/-- The per-slot liveness invariant: a positive refcount means the storage
holds a live value, and every counter fits in 64 bits. -/
def LiveInv {N : Nat} {T : Type} (a : ArcArray N T) : Prop :=
  ∀ i : Fin N, (1 ≤ a.ref_counts i → ∃ v, a.items i = SlotStorage.live v) ∧
    a.ref_counts i < u64Mod

theorem reach_liveInv {N : Nat} {T : Type} {a : ArcArray N T}
    (hr : Reach (ArcArray.new N T) a) : LiveInv a := by
  induction hr with
  | refl =>
    intro i
    exact ⟨fun h => by simp [ArcArray.new] at h, by norm_num [ArcArray.new, u64Mod]⟩
  | @acquire b σ init s hr ih =>
    cases hff : firstFree b with
    | some i0 =>
      rw [acquire_of_firstFree_some init s hff]
      intro i
      by_cases hii : i = i0
      · subst hii
        constructor
        · intro _
          exact ⟨(init s).1, Function.update_same _ _ _⟩
        · show Function.update b.ref_counts i 1 i < u64Mod
          rw [Function.update_same]
          norm_num [u64Mod]
      · constructor
        · intro hpos
          show ∃ v, Function.update b.items i0 (SlotStorage.live (init s).1) i =
            SlotStorage.live v
          rw [Function.update_noteq hii]
          apply (ih i).1
          show 1 ≤ b.ref_counts i
          have : Function.update b.ref_counts i0 1 i = b.ref_counts i :=
            Function.update_noteq hii _ _
          rw [← this]
          exact hpos
        · show Function.update b.ref_counts i0 1 i < u64Mod
          rw [Function.update_noteq hii]
          exact (ih i).2
    | none =>
      rw [acquire_of_firstFree_none init s hff]
      exact ih
  | @inc b i hr hpos hov ih =>
    have hc := inc_count_in b i
    intro j
    by_cases hji : j = i
    · subst hji
      rw [hc]
      constructor
      · intro _
        exact (ih j).1 hpos
      · show Function.update b.ref_counts j ((b.ref_counts j + 1) % u64Mod) j < u64Mod
        rw [Function.update_same, Nat.mod_eq_of_lt hov]
        omega
    · rw [hc]
      constructor
      · intro hpos'
        apply (ih j).1
        show 1 ≤ b.ref_counts j
        have : Function.update b.ref_counts i ((b.ref_counts i + 1) % u64Mod) j =
            b.ref_counts j := Function.update_noteq hji _ _
        rw [← this]
        exact hpos'
      · show Function.update b.ref_counts i ((b.ref_counts i + 1) % u64Mod) j < u64Mod
        rw [Function.update_noteq hji]
        exact (ih j).2
  | @dec b debug i hr hpos ih =>
    rcases (by omega : b.ref_counts i = 1 ∨ 2 ≤ b.ref_counts i) with h1 | h2
    · have hdec := dec_count_in_one debug b i h1
      intro j
      by_cases hji : j = i
      · subst hji
        rw [hdec]
        constructor
        · intro hpos'
          exfalso
          have h0 : Function.update b.ref_counts j 0 j = 0 := Function.update_same _ _ _
          have hpos2 : (1 : Nat) ≤ Function.update b.ref_counts j 0 j := hpos'
          omega
        · show Function.update b.ref_counts j 0 j < u64Mod
          rw [Function.update_same]
          norm_num [u64Mod]
      · rw [hdec]
        constructor
        · intro hpos'
          show ∃ v, Function.update b.items i SlotStorage.destroyed j = SlotStorage.live v
          rw [Function.update_noteq hji]
          apply (ih j).1
          show 1 ≤ b.ref_counts j
          have : Function.update b.ref_counts i 0 j = b.ref_counts j :=
            Function.update_noteq hji _ _
          rw [← this]
          exact hpos'
        · show Function.update b.ref_counts i 0 j < u64Mod
          rw [Function.update_noteq hji]
          exact (ih j).2
    · have hdec := dec_count_in_many debug b i h2 (ih i).2
      intro j
      by_cases hji : j = i
      · subst hji
        rw [hdec]
        constructor
        · intro _
          exact (ih j).1 (by omega)
        · show Function.update b.ref_counts j (b.ref_counts j - 1) j < u64Mod
          rw [Function.update_same]
          have := (ih j).2
          omega
      · rw [hdec]
        constructor
        · intro hpos'
          apply (ih j).1
          show 1 ≤ b.ref_counts j
          have : Function.update b.ref_counts i (b.ref_counts i - 1) j =
              b.ref_counts j := Function.update_noteq hji _ _
          rw [← this]
          exact hpos'
        · show Function.update b.ref_counts i (b.ref_counts i - 1) j < u64Mod
          rw [Function.update_noteq hji]
          exact (ih j).2

/-- C5: in any state reached from a fresh table by protocol-respecting use of
the operations, every slot with refcount greater than 0 holds a live value and
`get_ref` on it returns that value, never a destroyed or uninitialized one;
moreover immediately after a successful `acquire_and_init` of slot `i`,
`get_ref i` returns exactly the value the initializer constructed. `get_ref`
itself takes the state and returns only a value, so it alters no refcount and
no storage. -/
theorem C5_get_ref_live {N : Nat} {T : Type} (a : ArcArray N T)
    (hr : Reach (ArcArray.new N T) a) :
    (∀ i : Fin N, 1 ≤ a.ref_counts i →
       ∃ v, a.items i = SlotStorage.live v ∧ get_ref a i.val = some v) ∧
    (∀ (σ : Type) (init : σ → T × σ) (s : σ) (i : Fin N),
       (acquire_and_init a init s).1 = some i →
       get_ref (acquire_and_init a init s).2.1 i.val = some (init s).1) := by
  constructor
  · intro i hpos
    obtain ⟨v, hv⟩ := (reach_liveInv hr i).1 hpos
    refine ⟨v, hv, ?_⟩
    unfold get_ref
    rw [dif_pos i.isLt]
    simp only [Fin.eta, hv]
  · intro σ init s i hsome
    rw [acquire_fst] at hsome
    rw [acquire_of_firstFree_some init s hsome]
    unfold get_ref
    rw [dif_pos i.isLt]
    simp only [Fin.eta]
    show (match Function.update a.items i (SlotStorage.live (init s).1) i with
          | SlotStorage.live v => some v
          | _ => none) = some (init s).1
    rw [Function.update_same]

theorem C5_get_ref_live_witness :
    ∃ v, (acquire_and_init (ArcArray.new 1 Nat) (fun _ : Unit => ((7 : Nat), ())) ()).2.1.items
        ⟨0, by omega⟩ = SlotStorage.live v ∧
      get_ref (acquire_and_init (ArcArray.new 1 Nat) (fun _ : Unit => ((7 : Nat), ())) ()).2.1
        0 = some v :=
  (C5_get_ref_live _
      (Reach.acquire (fun _ : Unit => ((7 : Nat), ())) () (Reach.refl (ArcArray.new 1 Nat)))).1
    ⟨0, by omega⟩ (by decide)

end ArcArraySpec
